import Mathlib

/-!
Shallow embedding of the data pipeline of `src/main.py` (LeetCode_Friends):
rank-delta classification, accuracy computation, skill-table normalization and
sorting, the leaderboard heatmap pivot, the tracked-user store, the fetch loop,
and the TTL cache layer, together with theorems settling the specification
claims about them.
-/

namespace LCF

/-- A Python value standing in a rank position: an integer ranking, the string
`"N/A"`, or Python `None` (also covering an absent dictionary entry, since
`dict.get` returns `None` then).  `pd.isna` is true exactly on `unknown`. -/
inductive PyRank where
  | int (n : Int)
  | na
  | unknown
deriving DecidableEq, Repr

/-- `rank_change` (src/main.py lines 102-110).  `pd.isna(old)` holds exactly for
`unknown`; the equality test `old == "N/A"` holds for `na`.  Past the guard the
code computes `old - new`: defined only when both operands are integers, a
`TypeError` otherwise, modelled as `Except.error`. -/
def rank_change : PyRank → PyRank → Except String String
  | .unknown, _ => .ok ""
  | .na, _ => .ok ""
  | .int o, .int n =>
      .ok (if o - n > 0 then "Up " ++ toString (o - n)
           else if o - n < 0 then "Down " ++ toString (n - o)
           else "No change")
  | .int _, _ => .error "TypeError"

end LCF

namespace LCF

/-- Python `round(x, 2)` figure: round half to even at the integer scale.
Used on the exact rational value (the embedding works in `ℚ` in place of IEEE
doubles). -/
def pyRoundHalfEven (x : ℚ) : ℤ :=
  if x - ⌊x⌋ < 1/2 then ⌊x⌋
  else if 1/2 < x - ⌊x⌋ then ⌊x⌋ + 1
  else if ⌊x⌋ % 2 = 0 then ⌊x⌋ else ⌊x⌋ + 1

/-- Python `round(x, 2)`: round half to even at two decimal places. -/
def round2 (x : ℚ) : ℚ := (pyRoundHalfEven (x * 100) : ℚ) / 100

/-- One element of `matchedUserStats.acSubmissionNum` /
`totalSubmissionNum`: a difficulty name and a submission count. -/
structure SubBucket where
  difficulty : String
  submissions : Int
deriving DecidableEq, Repr

/-- The part of the profile payload read by `compute_accuracy`.  `malformed`
covers every payload on which the key accesses or the iteration raise (missing
`matchedUserStats`, missing keys, wrong shapes): the bare `except` of the
source catches all of those. -/
inductive ProfileStats where
  | malformed
  | stats (ac total : List SubBucket)
deriving DecidableEq, Repr

/-- The `for a, t in zip(ac, total)` loop body of `compute_accuracy`
(src/main.py lines 65-68): first pair whose `a` bucket is "All" decides the
result; `if sub` guards the division by zero. -/
def accLoop : List (SubBucket × SubBucket) → ℚ
  | [] => 0
  | (a, t) :: rest =>
      if a.difficulty = "All" then
        if t.submissions ≠ 0 then
          round2 ((a.submissions : ℚ) / (t.submissions : ℚ) * 100)
        else 0
      else accLoop rest

/-- `compute_accuracy` (src/main.py lines 61-71). -/
def compute_accuracy : ProfileStats → ℚ
  | .malformed => 0
  | .stats ac total => accLoop (ac.zip total)

/-- Validity of the counts: accepted counts are nonnegative and bounded by the
paired total counts. -/
def ValidStats : ProfileStats → Prop
  | .malformed => True
  | .stats ac total =>
      ∀ p ∈ ac.zip total, 0 ≤ p.1.submissions ∧ p.1.submissions ≤ p.2.submissions

/-- One entry of a per-level skill list in the skill payload: `tagName` and
`problemsSolved`, each possibly absent (`s.get` with defaults in the source). -/
structure SkillJson where
  tagName : Option String
  problemsSolved : Option Int
deriving DecidableEq, Repr

/-- A value of the top-level skill payload dictionary: a list of skill entries,
or any non-list value, which the `isinstance(skills, list)` check skips. -/
inductive SkillVal where
  | list (skills : List SkillJson)
  | other
deriving DecidableEq, Repr

/-- `LEVEL_ORDER` (src/main.py line 18). -/
def LEVEL_ORDER : List (String × Nat) :=
  [("Advanced", 0), ("Intermediate", 1), ("Fundamental", 2)]

/-- `LEVEL_ORDER.get(level, 2)`: the numeric sort key of a level name. -/
def levelRank (level : String) : Nat := (LEVEL_ORDER.lookup level).getD 2

/-- Python `str.capitalize()` (over ASCII): first character uppercased, the
rest lowercased. -/
def pyCapitalize (s : String) : String :=
  match s.data with
  | [] => ""
  | c :: cs => String.mk (c.toUpper :: cs.map Char.toLower)

/-- Level normalization in `get_skill_table` (src/main.py lines 81-83):
capitalize, then fall back to "Fundamental" when the result is not a
`LEVEL_ORDER` key. -/
def normalizeLevel (raw : String) : String :=
  let level := pyCapitalize raw
  if level ∈ LEVEL_ORDER.map Prod.fst then level else "Fundamental"

/-- A row of the skill table (the `records` entries of src/main.py
lines 86-92, without the derived `_sort` column, which is
`levelRank level` because `level` is already normalized there). -/
structure SkillRecord where
  level : String
  skill : String
  problemsSolved : Int
  username : String
deriving DecidableEq, Repr

/-- The record-building loop of `get_skill_table` (src/main.py lines 80-92). -/
def skillRecords (username : String) (data : List (String × SkillVal)) :
    List SkillRecord :=
  data.flatMap fun lv =>
    match lv.2 with
    | .other => []
    | .list skills =>
        skills.map fun s =>
          { level := normalizeLevel lv.1
            skill := s.tagName.getD "Unknown"
            problemsSolved := s.problemsSolved.getD 0
            username := username }

/-- The key of `df.sort_values(["_sort", "Problems Solved"], ascending=[True, False])`
(src/main.py line 96): level rank ascending, then problems solved descending.
A multi-column pandas sort is a stable lexicographic sort (`np.lexsort` over
per-column codes), embedded as a stable merge sort on the same key. -/
def skillLE (a b : SkillRecord) : Bool :=
  decide (levelRank a.level < levelRank b.level ∨
    (levelRank a.level = levelRank b.level ∧ b.problemsSolved ≤ a.problemsSolved))

/-- `get_skill_table` (src/main.py lines 73-100), as a function of the fetch
outcome: `Option.none` is the exception path (network/HTTP/parse failure),
returning an empty table and a user-visible error message; otherwise the
records are built and sorted.  First component: the table; second: the
emitted warnings. -/
def get_skill_table (username : String)
    (outcome : Option (List (String × SkillVal))) :
    List SkillRecord × List String :=
  match outcome with
  | Option.none => ([], ["Skill error (" ++ username ++ ")"])
  | some data => ((skillRecords username data).mergeSort skillLE, [])

/-- Update one cell of the pivot accumulator: add `v` to the entry keyed `k`,
appending the key when absent. -/
def bumpCell (m : List ((String × String × String) × Int))
    (k : String × String × String) (v : Int) :
    List ((String × String × String) × Int) :=
  match m with
  | [] => [(k, v)]
  | (j, w) :: rest =>
      if j = k then (j, w + v) :: rest else (j, w) :: bumpCell rest k v

/-- The cell aggregation of the full heatmap `pivot_table` (src/main.py lines
294-300): group records by (Skill, Level, Username) and sum
`problemsSolved` (`aggfunc="sum"`). -/
def heatCells (rs : List SkillRecord) :
    List ((String × String × String) × Int) :=
  rs.foldl (fun m r => bumpCell m (r.skill, r.level, r.username) r.problemsSolved) []

/-- One heatmap cell: the aggregated sum for (skill, level, username), 0 when
no record with that key exists (`fill_value=0`). -/
def heatCell (rs : List SkillRecord) (skill level username : String) : Int :=
  ((heatCells rs).lookup (skill, level, username)).getD 0

/-- The lexicographic (Skill, Level) order in which `pivot_table` returns its
index rows before the final `_sort` pass. -/
def rowKeyLE (a b : String × String) : Bool :=
  decide (a.1 < b.1 ∨ (a.1 = b.1 ∧ a.2 ≤ b.2))

/-- The `_sort` ordering of the final `sort_values("_sort")` over pivot rows. -/
def rowRankLE (a b : String × String) : Bool :=
  decide (levelRank a.2 ≤ levelRank b.2)

/-- The heatmap row index (src/main.py lines 294-301): the distinct
(Skill, Level) pairs of the records, listed lexicographically by
`pivot_table`, then sorted by level rank (`sort_values("_sort")`). -/
def heatRows (rs : List SkillRecord) : List (String × String) :=
  (((rs.map fun r => (r.skill, r.level)).dedup).mergeSort rowKeyLE).mergeSort rowRankLE

/-- Python `str.strip()`: drop whitespace from both ends. -/
def pyStrip (s : String) : String :=
  String.mk ((s.data.dropWhile Char.isWhitespace).rdropWhile Char.isWhitespace)

/-- A row of the tracked-user store (`tracked_users.csv`): username plus the
`added_at` timestamp. -/
structure TrackedUser where
  username : String
  addedAt : Nat
deriving DecidableEq, Repr

/-- `add_user` (src/main.py lines 35-43): strip the name, then append a new
row and report `True` only when the name is nonempty and not already among
the stored usernames; otherwise leave the store untouched and report
`False`.  Result: (success flag, resulting store). -/
def add_user (store : List TrackedUser) (username : String) (now : Nat) :
    Bool × List TrackedUser :=
  let u := pyStrip username
  if u ≠ "" ∧ u ∉ store.map TrackedUser.username then
    (true, store ++ [{ username := u, addedAt := now }])
  else (false, store)

/-- The name list processed by the "Add User(s)" handler (src/main.py
line 126): split the input on commas, strip each piece, drop empties. -/
def parsedNames (input : String) : List String :=
  ((input.splitOn ",").map pyStrip).filter (· ≠ "")

/-- The "Add User(s)" button handler (src/main.py lines 123-135): run
`add_user` over the parsed names and report a success message, the warning
"All usernames already exist." or the empty-input error.  Result: (final
store, added names, message). -/
def addUsersHandler (store : List TrackedUser) (input : String) (now : Nat) :
    List TrackedUser × List String × String :=
  if pyStrip input ≠ "" then
    let step := fun (acc : List TrackedUser × List String) (u : String) =>
      let r := add_user acc.1 u now
      (r.2, if r.1 then acc.2 ++ [u] else acc.2)
    let res := (parsedNames input).foldl step (store, [])
    if res.2 ≠ [] then (res.1, res.2, "Added: " ++ String.intercalate ", " res.2)
    else (res.1, res.2, "All usernames already exist.")
  else (store, [], "Enter at least one username.")

/-- The profile-payload fields read by the fetch loop; each is read with
`.get` and may be absent.  `stats` is the portion consumed by
`compute_accuracy`. -/
structure ProfilePayload where
  totalSolved : Option Int
  easySolved : Option Int
  mediumSolved : Option Int
  hardSolved : Option Int
  ranking : Option Int
  stats : ProfileStats
deriving DecidableEq, Repr

/-- The outcome of one network request as observed by a `try` block: a parsed
payload, or any raised exception (connection error, non-2xx status via
`raise_for_status`, JSON decode error). -/
inductive FetchResult (α : Type) where
  | success (value : α)
  | failure (err : String)
deriving DecidableEq, Repr

/-- `get_profile` (src/main.py lines 51-59) as a function of the request
outcome: on failure, emit a user-visible error message and return `None`; no
exception escapes.  Result: (returned value, emitted warnings).  A successful
payload is taken to be a non-empty (truthy) dict, as the profile endpoint
returns; an empty-dict response would behave like the `None` branch of the
loop but without the warning. -/
def get_profile (user : String) (outcome : FetchResult ProfilePayload) :
    Option ProfilePayload × List String :=
  match outcome with
  | .success p => (some p, [])
  | .failure err => (Option.none, ["Profile error (" ++ user ++ "): " ++ err])

/-- A leaderboard row as built in the fetch loop (src/main.py lines 159-168). -/
structure RowEntry where
  username : String
  totalSolved : Int
  easy : Int
  medium : Int
  hard : Int
  accuracy : ℚ
  rank : PyRank
  rankDelta : String
deriving DecidableEq, Repr

/-- `prof.get("ranking")` (no default): Python `None` when the key is absent. -/
def curRank (p : ProfilePayload) : PyRank :=
  match p.ranking with
  | some n => .int n
  | Option.none => .unknown

/-- `prof.get("ranking", "N/A")`: the Rank column value. -/
def rankCol (p : ProfilePayload) : PyRank :=
  match p.ranking with
  | some n => .int n
  | Option.none => .na

/-- `st.session_state.prev_ranks.get(user)`: Python `None` when absent, which
`rank_change` treats like a stored `None`. -/
def prevGet (prev : List (String × PyRank)) (user : String) : PyRank :=
  (prev.lookup user).getD .unknown

/-- Assignment into the `prev_ranks` dict: replace the entry, appending the
key when absent. -/
def dictSet (prev : List (String × PyRank)) (user : String) (v : PyRank) :
    List (String × PyRank) :=
  match prev with
  | [] => [(user, v)]
  | (k, w) :: rest => if k = user then (k, v) :: rest else (k, w) :: dictSet rest user v

/-- The accumulated state of the fetch loop: the `rows` list, the per-user
`skill_dfs` list, the session `prev_ranks` dict, and the warnings shown so
far. -/
structure PipelineState where
  rows : List RowEntry
  skills : List (List SkillRecord)
  prevRanks : List (String × PyRank)
  warnings : List String
deriving DecidableEq, Repr

/-- The row dict appended for a fetched profile (src/main.py lines 159-168),
with the rank delta passed in. -/
def mkRow (user : String) (p : ProfilePayload) (delta : String) : RowEntry :=
  { username := user
    totalSolved := p.totalSolved.getD 0
    easy := p.easySolved.getD 0
    medium := p.mediumSolved.getD 0
    hard := p.hardSolved.getD 0
    accuracy := compute_accuracy p.stats
    rank := rankCol p
    rankDelta := delta }

/-- One iteration of the fetch loop (src/main.py lines 154-170) for `user`:
fetch the profile via `get_profile`; on success build the row (which
evaluates `rank_change`, whose `TypeError` would abort the whole run, hence
the `Except`), fetch the skill table, and store the current ranking into
`prev_ranks`; on a `None` profile store "N/A" into `prev_ranks` and move
on. -/
def pipelineStep (profOutcome : FetchResult ProfilePayload)
    (skillOutcome : Option (List (String × SkillVal))) (user : String)
    (st : PipelineState) : Except String PipelineState :=
  let gp := get_profile user profOutcome
  match gp.1 with
  | some p =>
      match rank_change (prevGet st.prevRanks user) (curRank p) with
      | .error e => .error e
      | .ok delta =>
          let sk := get_skill_table user skillOutcome
          .ok { rows := st.rows ++ [mkRow user p delta]
                skills := st.skills ++ [sk.1]
                prevRanks := dictSet st.prevRanks user (curRank p)
                warnings := st.warnings ++ gp.2 ++ sk.2 }
  | Option.none =>
      .ok { st with
            warnings := st.warnings ++ gp.2
            prevRanks := dictSet st.prevRanks user PyRank.na }

/-- The fetch loop (src/main.py lines 154-170) over the tracked usernames, the
request outcomes given by the oracles `profO` and `skillO` (one outcome per
user and endpoint, as in one run). -/
def run_pipeline (profO : String → FetchResult ProfilePayload)
    (skillO : String → Option (List (String × SkillVal))) :
    List String → PipelineState → Except String PipelineState
  | [], st => .ok st
  | u :: rest, st =>
      match pipelineStep (profO u) (skillO u) u st with
      | .error e => .error e
      | .ok next => run_pipeline profO skillO rest next

/-- Whether a fetch outcome is a success. -/
def isSuccess {α : Type} : FetchResult α → Bool
  | .success _ => true
  | .failure _ => false

/-- The warnings one user contributes to a run. -/
def warnFor (profO : String → FetchResult ProfilePayload)
    (skillO : String → Option (List (String × SkillVal))) (u : String) :
    List String :=
  match profO u with
  | .failure err => ["Profile error (" ++ u ++ "): " ++ err]
  | .success _ => (get_skill_table u (skillO u)).2

/-- Modelled from the spec: the TTL memoization layer that the external
`st.cache_data(ttl=CACHE_TTL)` decorator (src/main.py lines 51 and 73) wraps
around the two fetchers is not code of this repository.  Per the spec it is
an explicit keyed cache — key = endpoint plus username, value = response plus
fetch timestamp — with a pure expiry check against the TTL and an explicit
bulk clear ("Refresh All", src/main.py lines 137-140). -/
structure Cache (α : Type) where
  entries : List ((String × String) × (α × Nat))
deriving DecidableEq, Repr

/-- `CACHE_TTL` (src/main.py line 15). -/
def CACHE_TTL : Nat := 1800

/-- Replace (or append) one cache entry. -/
def setEntry {α : Type} :
    List ((String × String) × (α × Nat)) → String × String → α × Nat →
      List ((String × String) × (α × Nat))
  | [], k, v => [(k, v)]
  | (j, w) :: rest, k, v =>
      if j = k then (j, v) :: rest else (j, w) :: setEntry rest k v

/-- Modelled from the spec: one fetch through the TTL cache.  When a live
entry exists (stored less than `CACHE_TTL` seconds before `now`), return it
without a network call; otherwise call the network and store the fresh value
at `now`.  Result: (value, cache afterwards, whether a network call was
made). -/
def cachedFetch {α : Type} (fetch : String → String → α) (c : Cache α)
    (endpoint user : String) (now : Nat) : α × Cache α × Bool :=
  match c.entries.lookup (endpoint, user) with
  | some (v, t) =>
      if now < t + CACHE_TTL then (v, c, false)
      else (fetch endpoint user,
        ⟨setEntry c.entries (endpoint, user) (fetch endpoint user, now)⟩, true)
  | Option.none =>
      (fetch endpoint user,
        ⟨setEntry c.entries (endpoint, user) (fetch endpoint user, now)⟩, true)

/-- The "Refresh All (clear cache)" action (src/main.py lines 137-140):
`st.cache_data.clear()` empties the whole cache. -/
def clearCache {α : Type} (_ : Cache α) : Cache α := ⟨[]⟩

/-- A profile oracle under which every request fails. -/
def failOracle : String → FetchResult ProfilePayload :=
  fun _ => FetchResult.failure "timeout"

/-- A skill oracle under which every request fails. -/
def noSkills : String → Option (List (String × SkillVal)) := fun _ => Option.none

end LCF

namespace LCF

theorem pyRoundHalfEven_bounds {y : ℚ} {B : ℤ} (h0 : 0 ≤ y) (h1 : y ≤ (B : ℚ)) :
    0 ≤ pyRoundHalfEven y ∧ pyRoundHalfEven y ≤ B := by
  have hf0 : 0 ≤ ⌊y⌋ := Int.floor_nonneg.mpr h0
  have hfB : ⌊y⌋ ≤ B := by
    have h := Int.floor_le_floor h1
    simpa using h
  have hstep : ¬ (y - ⌊y⌋ < 1/2) → ⌊y⌋ + 1 ≤ B := by
    intro hge
    push_neg at hge
    have hfy : (⌊y⌋ : ℚ) + 1/2 ≤ y := by linarith
    have hlt : (⌊y⌋ : ℚ) < (B : ℚ) := by linarith
    have : ⌊y⌋ < B := by exact_mod_cast hlt
    omega
  unfold pyRoundHalfEven
  split
  · exact ⟨hf0, hfB⟩
  · rename_i hge
    split
    · exact ⟨by omega, hstep hge⟩
    · split
      · exact ⟨hf0, hfB⟩
      · exact ⟨by omega, hstep hge⟩

theorem round2_bounds {x : ℚ} (h0 : 0 ≤ x) (h1 : x ≤ 100) :
    0 ≤ round2 x ∧ round2 x ≤ 100 := by
  have hy0 : 0 ≤ x * 100 := by linarith
  have hy1 : x * 100 ≤ ((10000 : ℤ) : ℚ) := by push_cast; linarith
  obtain ⟨hl, hr⟩ := pyRoundHalfEven_bounds hy0 hy1
  have hl' : (0 : ℚ) ≤ (pyRoundHalfEven (x * 100) : ℚ) := by exact_mod_cast hl
  have hr' : (pyRoundHalfEven (x * 100) : ℚ) ≤ 10000 := by exact_mod_cast hr
  constructor
  · exact div_nonneg hl' (by norm_num)
  · rw [round2, div_le_iff₀ (by norm_num : (0:ℚ) < 100)]
    linarith

theorem accLoop_of_absent {l : List (SubBucket × SubBucket)}
    (h : ∀ p ∈ l, p.1.difficulty ≠ "All") : accLoop l = 0 := by
  induction l with
  | nil => rfl
  | cons q rest ih =>
    have hq : q.1.difficulty ≠ "All" := h q (List.mem_cons_self q rest)
    obtain ⟨a, t⟩ := q
    simp only [accLoop, if_neg hq]
    exact ih fun p hp => h p (List.mem_cons_of_mem _ hp)

theorem accLoop_of_found (pre post : List (SubBucket × SubBucket)) (a t : SubBucket)
    (hpre : ∀ p ∈ pre, p.1.difficulty ≠ "All") (ha : a.difficulty = "All") :
    accLoop (pre ++ (a, t) :: post) =
      if t.submissions ≠ 0 then
        round2 ((a.submissions : ℚ) / (t.submissions : ℚ) * 100)
      else 0 := by
  induction pre with
  | nil => simp only [List.nil_append, accLoop, if_pos ha]
  | cons q rest ih =>
    have hq : q.1.difficulty ≠ "All" := hpre q (List.mem_cons_self q rest)
    obtain ⟨a', t'⟩ := q
    simp only [List.cons_append, accLoop, if_neg hq]
    exact ih fun p hp => hpre p (List.mem_cons_of_mem _ hp)

theorem accLoop_bounds {l : List (SubBucket × SubBucket)}
    (h : ∀ p ∈ l, 0 ≤ p.1.submissions ∧ p.1.submissions ≤ p.2.submissions) :
    0 ≤ accLoop l ∧ accLoop l ≤ 100 := by
  induction l with
  | nil =>
    refine ⟨le_refl 0, ?_⟩
    show (0 : ℚ) ≤ 100
    norm_num
  | cons q rest ih =>
    obtain ⟨a, t⟩ := q
    obtain ⟨ha0, hat⟩ := h (a, t) (List.mem_cons_self _ _)
    simp only [accLoop]
    split
    · split
      · rename_i hts
        have ht0 : (0 : ℚ) < (t.submissions : ℚ) := by
          have : 0 < t.submissions := lt_of_le_of_ne (le_trans ha0 hat) (Ne.symm hts)
          exact_mod_cast this
        have ha0' : (0 : ℚ) ≤ (a.submissions : ℚ) := by exact_mod_cast ha0
        have hat' : (a.submissions : ℚ) ≤ (t.submissions : ℚ) := by exact_mod_cast hat
        have hdiv0 : 0 ≤ (a.submissions : ℚ) / (t.submissions : ℚ) :=
          div_nonneg ha0' (le_of_lt ht0)
        have hdiv1 : (a.submissions : ℚ) / (t.submissions : ℚ) ≤ 1 :=
          (div_le_one ht0).mpr hat'
        exact round2_bounds (by linarith) (by linarith)
      · exact ⟨le_refl 0, by norm_num⟩
    · exact ih fun p hp => h p (List.mem_cons_of_mem _ hp)

/-- C1 (counterexample): at a numeric previous rank paired with a current rank
of "N/A", `rank_change` does not return any string: the subtraction
`old - new` raises a `TypeError`, contradicting the claim that the function
returns one of the four strings on every input in the stated domain. -/
theorem c1_rank_change_counterexample :
    rank_change (PyRank.int 500) PyRank.na = Except.error "TypeError" := rfl

/-- C1 (amended): whenever the previous rank is unknown or "N/A", or the
current rank is an integer, `rank_change` returns exactly one of the four
strings "", "Up (previous-current)", "Down (current-previous)", "No change"
according to the sign of previous - current; on the remaining inputs (numeric
previous with current "N/A" or missing) it raises a `TypeError` instead. -/
theorem c1_rank_change_amended (old new : PyRank)
    (h : (∃ n, new = PyRank.int n) ∨ old = PyRank.unknown ∨ old = PyRank.na) :
    ∃ s, rank_change old new = Except.ok s ∧
      ((s = "" ∧ (old = PyRank.unknown ∨ old = PyRank.na)) ∨
       (∃ o n, old = PyRank.int o ∧ new = PyRank.int n ∧
         ((o - n > 0 ∧ s = "Up " ++ toString (o - n)) ∨
          (o - n < 0 ∧ s = "Down " ++ toString (n - o)) ∨
          (o = n ∧ s = "No change")))) := by
  cases old with
  | unknown => exact ⟨"", rfl, Or.inl ⟨rfl, Or.inl rfl⟩⟩
  | na => exact ⟨"", rfl, Or.inl ⟨rfl, Or.inr rfl⟩⟩
  | int o =>
    obtain ⟨n, rfl⟩ | h | h := h
    · rcases lt_trichotomy (o - n) 0 with hlt | heq | hgt
      · refine ⟨"Down " ++ toString (n - o), ?_,
          Or.inr ⟨o, n, rfl, rfl, Or.inr (Or.inl ⟨hlt, rfl⟩)⟩⟩
        simp only [rank_change]
        rw [if_neg (by omega), if_pos hlt]
      · refine ⟨"No change", ?_, Or.inr ⟨o, n, rfl, rfl, Or.inr (Or.inr ⟨by omega, rfl⟩)⟩⟩
        simp only [rank_change]
        rw [if_neg (by omega), if_neg (by omega)]
      · refine ⟨"Up " ++ toString (o - n), ?_, Or.inr ⟨o, n, rfl, rfl, Or.inl ⟨hgt, rfl⟩⟩⟩
        simp only [rank_change]
        rw [if_pos hgt]
    · exact absurd h (by simp)
    · exact absurd h (by simp)

/-- C1 (witness): the amended theorem applied at previous rank 500 and current
rank 300, where the hypothesis holds and the result is "Up 200". -/
theorem c1_rank_change_witness :
    ((∃ n, PyRank.int 300 = PyRank.int n) ∨ PyRank.int 500 = PyRank.unknown ∨
        PyRank.int 500 = PyRank.na) ∧
      ∃ s, rank_change (PyRank.int 500) (PyRank.int 300) = Except.ok s ∧
        ((s = "" ∧ (PyRank.int 500 = PyRank.unknown ∨ PyRank.int 500 = PyRank.na)) ∨
         (∃ o n, PyRank.int 500 = PyRank.int o ∧ PyRank.int 300 = PyRank.int n ∧
           ((o - n > 0 ∧ s = "Up " ++ toString (o - n)) ∨
            (o - n < 0 ∧ s = "Down " ++ toString (n - o)) ∨
            (o = n ∧ s = "No change")))) :=
  ⟨Or.inl ⟨300, rfl⟩,
    c1_rank_change_amended (PyRank.int 500) (PyRank.int 300) (Or.inl ⟨300, rfl⟩)⟩

/-- C3: `compute_accuracy` is total (never raises): it returns 0 on malformed
payloads, 0 when no "All" bucket appears among the zipped pairs, the rounded
percentage `round(100·accepted/total, 2)` when the first "All" pair has a
nonzero total (0 when that total is zero), and on valid payloads (accepted
counts between 0 and the paired totals) the result lies in [0, 100]. -/
theorem c3_compute_accuracy_spec :
    compute_accuracy ProfileStats.malformed = 0 ∧
    (∀ ac total : List SubBucket, (∀ p ∈ ac.zip total, p.1.difficulty ≠ "All") →
       compute_accuracy (ProfileStats.stats ac total) = 0) ∧
    (∀ ac total : List SubBucket, ∀ pre post : List (SubBucket × SubBucket),
       ∀ a t : SubBucket, ac.zip total = pre ++ (a, t) :: post →
       (∀ p ∈ pre, p.1.difficulty ≠ "All") → a.difficulty = "All" →
       (t.submissions = 0 → compute_accuracy (ProfileStats.stats ac total) = 0) ∧
       (t.submissions ≠ 0 →
         compute_accuracy (ProfileStats.stats ac total) =
           round2 (100 * (a.submissions : ℚ) / (t.submissions : ℚ)))) ∧
    (∀ p, ValidStats p → 0 ≤ compute_accuracy p ∧ compute_accuracy p ≤ 100) := by
  refine ⟨rfl, ?_, ?_, ?_⟩
  · intro ac total h
    exact accLoop_of_absent h
  · intro ac total pre post a t hzip hpre ha
    have hfound := accLoop_of_found pre post a t hpre ha
    constructor
    · intro ht
      show accLoop (ac.zip total) = 0
      rw [hzip, hfound, if_neg (by simp [ht])]
    · intro ht
      show accLoop (ac.zip total) = _
      rw [hzip, hfound, if_pos ht]
      congr 1
      ring
  · intro p hv
    cases p with
    | malformed =>
      refine ⟨le_refl 0, ?_⟩
      show (0 : ℚ) ≤ 100
      norm_num
    | stats ac total => exact accLoop_bounds hv

/-- C3 (witness): the theorem applied at a one-bucket payload with accepted 50
of 80 total; it yields the rounded percentage, and the bound conjunct applies
to the same valid payload. -/
theorem c3_compute_accuracy_witness :
    (([⟨"All", 50⟩] : List SubBucket).zip ([⟨"All", 80⟩] : List SubBucket) =
        [] ++ ((⟨"All", 50⟩ : SubBucket), (⟨"All", 80⟩ : SubBucket)) :: []) ∧
      compute_accuracy
          (ProfileStats.stats ([⟨"All", 50⟩] : List SubBucket)
            ([⟨"All", 80⟩] : List SubBucket)) =
        round2 (100 * ((50 : Int) : ℚ) / ((80 : Int) : ℚ)) :=
  ⟨rfl,
    (c3_compute_accuracy_spec.2.2.1 [⟨"All", 50⟩] [⟨"All", 80⟩] [] []
        ⟨"All", 50⟩ ⟨"All", 80⟩ rfl (by simp) rfl).2 (by decide)⟩

theorem normalizeLevel_mem (raw : String) :
    normalizeLevel raw = "Advanced" ∨ normalizeLevel raw = "Intermediate" ∨
      normalizeLevel raw = "Fundamental" := by
  unfold normalizeLevel
  by_cases h : pyCapitalize raw ∈ LEVEL_ORDER.map Prod.fst
  · rw [if_pos h]
    simpa [LEVEL_ORDER] using h
  · rw [if_neg h]
    exact Or.inr (Or.inr rfl)

theorem skillLE_trans (a b c : SkillRecord) :
    skillLE a b → skillLE b c → skillLE a c := by
  intro hab hbc
  simp only [skillLE, decide_eq_true_eq] at hab hbc ⊢
  rcases hab with h1 | ⟨h1, h1'⟩ <;> rcases hbc with h2 | ⟨h2, h2'⟩
  · exact Or.inl (h1.trans h2)
  · exact Or.inl (h2 ▸ h1)
  · exact Or.inl (h1 ▸ h2)
  · exact Or.inr ⟨h1.trans h2, h2'.trans h1'⟩

theorem skillLE_total (a b : SkillRecord) : skillLE a b || skillLE b a := by
  simp only [skillLE, Bool.or_eq_true, decide_eq_true_eq]
  omega

theorem mem_skillRecords_level {username : String} {data : List (String × SkillVal)}
    {r : SkillRecord} (hr : r ∈ skillRecords username data) :
    ∃ raw, r.level = normalizeLevel raw := by
  obtain ⟨lv, _, hmem⟩ := List.mem_flatMap.mp hr
  cases h2 : lv.2 with
  | other => rw [h2] at hmem; simp at hmem
  | list skills =>
    rw [h2] at hmem
    obtain ⟨s, _, rfl⟩ := List.mem_map.mp hmem
    exact ⟨lv.1, rfl⟩

/-- C4: level normalization capitalizes and coerces anything outside
{Advanced, Intermediate, Fundamental} to "Fundamental" (so "unrated" maps to
"Fundamental"), and consequently every record produced by `get_skill_table`
carries one of exactly those three level names. -/
theorem c4_skill_level_normalization :
    (∀ raw, normalizeLevel raw = "Advanced" ∨ normalizeLevel raw = "Intermediate" ∨
        normalizeLevel raw = "Fundamental") ∧
    normalizeLevel "unrated" = "Fundamental" ∧
    (∀ (username : String) (outcome : Option (List (String × SkillVal)))
        (r : SkillRecord), r ∈ (get_skill_table username outcome).1 →
      r.level = "Advanced" ∨ r.level = "Intermediate" ∨ r.level = "Fundamental") := by
  refine ⟨normalizeLevel_mem, by decide, ?_⟩
  intro username outcome r hr
  cases outcome with
  | none => simp [get_skill_table] at hr
  | some data =>
    simp only [get_skill_table] at hr
    rw [List.mem_mergeSort] at hr
    obtain ⟨raw, hraw⟩ := mem_skillRecords_level hr
    rw [hraw]
    exact normalizeLevel_mem raw

/-- C4 (witness): the theorem applied to the record fetched for user "alice"
from a payload whose level bucket is named "unrated": the produced record is a
member of the table and its level is one of the three names (here
"Fundamental"). -/
theorem c4_skill_level_normalization_witness :
    ((⟨"Fundamental", "Arrays", 10, "alice"⟩ : SkillRecord) ∈
        (get_skill_table "alice"
          (some [("unrated", SkillVal.list [⟨some "Arrays", some 10⟩])])).1) ∧
      (SkillRecord.level ⟨"Fundamental", "Arrays", 10, "alice"⟩ = "Advanced" ∨
       SkillRecord.level ⟨"Fundamental", "Arrays", 10, "alice"⟩ = "Intermediate" ∨
       SkillRecord.level ⟨"Fundamental", "Arrays", 10, "alice"⟩ = "Fundamental") := by
  have hmem : (⟨"Fundamental", "Arrays", 10, "alice"⟩ : SkillRecord) ∈
      (get_skill_table "alice"
        (some [("unrated", SkillVal.list [⟨some "Arrays", some 10⟩])])).1 := by
    simp only [get_skill_table]
    rw [List.mem_mergeSort]
    decide
  exact ⟨hmem, c4_skill_level_normalization.2.2 "alice"
    (some [("unrated", SkillVal.list [⟨some "Arrays", some 10⟩])]) _ hmem⟩

/-- C5: for every parsed skill payload, the table produced by
`get_skill_table` is sorted primarily by level rank (Advanced first) and
secondarily by problems solved descending, and is a permutation of the built
records (ties may appear in any order, which the permutation statement leaves
free). -/
theorem c5_skill_table_sort :
    ∀ (username : String) (data : List (String × SkillVal)),
      ((get_skill_table username (some data)).1.Pairwise fun a b =>
        levelRank a.level < levelRank b.level ∨
          (levelRank a.level = levelRank b.level ∧
            b.problemsSolved ≤ a.problemsSolved)) ∧
      (get_skill_table username (some data)).1.Perm (skillRecords username data) := by
  intro username data
  constructor
  · have hs := List.sorted_mergeSort skillLE_trans skillLE_total
      (skillRecords username data)
    exact hs.imp fun h => by simpa [skillLE, decide_eq_true_eq] using h
  · exact List.mergeSort_perm (skillRecords username data) skillLE

theorem lookup_bumpCell (m : List ((String × String × String) × Int))
    (k j : String × String × String) (v : Int) :
    (bumpCell m k v).lookup j =
      if j = k then some ((m.lookup k).getD 0 + v) else m.lookup j := by
  induction m with
  | nil =>
    by_cases h : j = k
    · subst h; simp [bumpCell, List.lookup]
    · simp [bumpCell, List.lookup, beq_false_of_ne h, if_neg h]
  | cons p rest ih =>
    obtain ⟨a, w⟩ := p
    by_cases hak : a = k
    · subst hak
      by_cases hja : j = a
      · subst hja; simp [bumpCell, List.lookup]
      · simp [bumpCell, List.lookup, beq_false_of_ne hja, if_neg hja]
    · by_cases hja : j = a
      · subst hja
        simp [bumpCell, List.lookup, if_neg hak, if_neg hak, beq_false_of_ne hak]
      · simp [bumpCell, List.lookup, if_neg hak, beq_false_of_ne hja,
          beq_false_of_ne (Ne.symm hak), ih]

theorem heatFold (rs : List SkillRecord)
    (m : List ((String × String × String) × Int)) (k : String × String × String) :
    (((rs.foldl
        (fun m r => bumpCell m (r.skill, r.level, r.username) r.problemsSolved)
        m).lookup k).getD 0) =
      (m.lookup k).getD 0 +
        ((rs.filter fun r =>
            decide ((r.skill, r.level, r.username) = k)).map (·.problemsSolved)).sum := by
  induction rs generalizing m with
  | nil => simp
  | cons r rest ih =>
    simp only [List.foldl_cons]
    rw [ih, lookup_bumpCell]
    by_cases h : (r.skill, r.level, r.username) = k
    · rw [if_pos h.symm]
      simp only [Option.getD_some]
      simp [List.filter_cons, h]
      omega
    · rw [if_neg fun hk => h hk.symm]
      simp [List.filter_cons, h]

theorem rowRankLE_trans (a b c : String × String) :
    rowRankLE a b → rowRankLE b c → rowRankLE a c := by
  simp only [rowRankLE, decide_eq_true_eq]
  omega

theorem rowRankLE_total (a b : String × String) : rowRankLE a b || rowRankLE b a := by
  simp only [rowRankLE, Bool.or_eq_true, decide_eq_true_eq]
  omega

/-- C6: every heatmap cell for a (skill, level) row and a username column is
the sum of `problemsSolved` over the records with that skill, level and
username — 0 when no such record exists; the row index is ordered by level
rank (Advanced first); and the construction is total, producing empty views on
empty skill data rather than an error. -/
theorem c6_heatmap_matrix :
    (∀ (rs : List SkillRecord) (skill level username : String),
       heatCell rs skill level username =
         ((rs.filter fun r =>
             decide (r.skill = skill ∧ r.level = level ∧ r.username = username)).map
           (·.problemsSolved)).sum) ∧
    (∀ (rs : List SkillRecord) (skill level username : String),
       (rs.filter fun r =>
           decide (r.skill = skill ∧ r.level = level ∧ r.username = username)) = [] →
       heatCell rs skill level username = 0) ∧
    (∀ rs : List SkillRecord,
       (heatRows rs).Pairwise fun a b => levelRank a.2 ≤ levelRank b.2) ∧
    heatCells ([] : List SkillRecord) = [] ∧ heatRows ([] : List SkillRecord) = [] := by
  have hcell : ∀ (rs : List SkillRecord) (skill level username : String),
      heatCell rs skill level username =
        ((rs.filter fun r =>
            decide (r.skill = skill ∧ r.level = level ∧ r.username = username)).map
          (·.problemsSolved)).sum := by
    intro rs skill level username
    have h := heatFold rs [] (skill, level, username)
    have hconv : (rs.filter fun r =>
        decide ((r.skill, r.level, r.username) = (skill, level, username))) =
        rs.filter fun r =>
          decide (r.skill = skill ∧ r.level = level ∧ r.username = username) := by
      apply List.filter_congr
      intro r _
      simp only [decide_eq_decide, Prod.mk.injEq]
    rw [hconv] at h
    simpa [heatCell, heatCells] using h
  refine ⟨hcell, ?_, ?_, rfl, by simp [heatRows]⟩
  · intro rs skill level username hempty
    rw [hcell, hempty]
    rfl
  · intro rs
    have hs := List.sorted_mergeSort rowRankLE_trans rowRankLE_total
      (((rs.map fun r => (r.skill, r.level)).dedup).mergeSort rowKeyLE)
    exact hs.imp fun h => by simpa [rowRankLE, decide_eq_true_eq] using h

/-- C6 (witness): the theorem applied at a concrete record list and a key with
no matching record: the filter is empty and the cell is 0. -/
theorem c6_heatmap_matrix_witness :
    (([⟨"Advanced", "Arrays", 5, "bob"⟩] : List SkillRecord).filter (fun r =>
        decide (r.skill = "Graphs" ∧ r.level = "Advanced" ∧ r.username = "alice")) =
      []) ∧
    heatCell [⟨"Advanced", "Arrays", 5, "bob"⟩] "Graphs" "Advanced" "alice" = 0 :=
  ⟨by decide, c6_heatmap_matrix.2.1 [⟨"Advanced", "Arrays", 5, "bob"⟩]
    "Graphs" "Advanced" "alice" (by decide)⟩

theorem pyStrip_idem (s : String) : pyStrip (pyStrip s) = pyStrip s := by
  unfold pyStrip
  congr 1
  show ((((s.data.dropWhile Char.isWhitespace).rdropWhile
      Char.isWhitespace).dropWhile Char.isWhitespace).rdropWhile Char.isWhitespace) = _
  have hpre : (s.data.dropWhile Char.isWhitespace).rdropWhile Char.isWhitespace <+:
      s.data.dropWhile Char.isWhitespace := List.rdropWhile_prefix _ _
  have hdrop : ((s.data.dropWhile Char.isWhitespace).rdropWhile
      Char.isWhitespace).dropWhile Char.isWhitespace =
      (s.data.dropWhile Char.isWhitespace).rdropWhile Char.isWhitespace := by
    rw [List.dropWhile_eq_self_iff]
    intro hpos
    have hlen : 0 < (s.data.dropWhile Char.isWhitespace).length :=
      lt_of_lt_of_le hpos hpre.length_le
    have hhead := List.dropWhile_get_zero_not Char.isWhitespace s.data hlen
    have hget := List.IsPrefix.getElem hpre hpos
    simp only [List.get_eq_getElem] at hhead ⊢
    rw [hget]
    exact hhead
  rw [hdrop, List.rdropWhile_idempotent]

theorem parsedNames_strip {input v : String} (hv : v ∈ parsedNames input) :
    pyStrip v = v := by
  have hv' := (List.mem_filter.mp hv).1
  obtain ⟨chunk, _, rfl⟩ := List.mem_map.mp hv'
  exact pyStrip_idem chunk

theorem add_user_mem {store : List TrackedUser} {username : String} (now : Nat)
    (h : pyStrip username ∈ store.map TrackedUser.username) :
    add_user store username now = (false, store) := by
  unfold add_user
  rw [if_neg]
  intro hcond
  exact hcond.2 h

/-- C7: adding a username already present in the store is a no-op returning a
failure flag: the store is unchanged (no duplicate row), a second add of the
same name after any add always fails and leaves the store as after the first,
and the UI handler answers "All usernames already exist." while leaving the
store unchanged when all entered names are already tracked. -/
theorem c7_add_user_idempotent :
    (∀ (store : List TrackedUser) (username : String) (now : Nat),
       pyStrip username ∈ store.map TrackedUser.username →
       add_user store username now = (false, store)) ∧
    (∀ (store : List TrackedUser) (username : String) (now now' : Nat),
       add_user (add_user store username now).2 username now' =
         (false, (add_user store username now).2)) ∧
    (∀ (store : List TrackedUser) (input : String) (now : Nat),
       pyStrip input ≠ "" →
       (∀ v ∈ parsedNames input, v ∈ store.map TrackedUser.username) →
       addUsersHandler store input now = (store, [], "All usernames already exist.")) := by
  refine ⟨fun store username now h => add_user_mem now h, ?_, ?_⟩
  · intro store username now now'
    by_cases hc : pyStrip username ≠ "" ∧
        pyStrip username ∉ store.map TrackedUser.username
    · have h1 : add_user store username now =
          (true, store ++ [{ username := pyStrip username, addedAt := now }]) := by
        unfold add_user
        rw [if_pos hc]
      rw [h1]
      apply add_user_mem
      simp
    · have h1 : add_user store username now = (false, store) := by
        unfold add_user
        rw [if_neg hc]
      rw [h1]
      show add_user store username now' = (false, store)
      unfold add_user
      rw [if_neg hc]
  · intro store input now hne hall
    unfold addUsersHandler
    rw [if_pos hne]
    have hfold : ∀ (names : List String) (added : List String),
        (∀ v ∈ names, v ∈ store.map TrackedUser.username ∧ pyStrip v = v) →
        names.foldl
          (fun (acc : List TrackedUser × List String) (u : String) =>
            let r := add_user acc.1 u now
            (r.2, if r.1 then acc.2 ++ [u] else acc.2))
          (store, added) = (store, added) := by
      intro names
      induction names with
      | nil => intro added _; rfl
      | cons v rest ih =>
        intro added hv
        obtain ⟨hmem, hstrip⟩ := hv v (List.mem_cons_self v rest)
        have hv' : add_user store v now = (false, store) :=
          add_user_mem now (hstrip.symm ▸ hmem)
        simp only [List.foldl_cons, hv']
        exact ih added fun w hw => hv w (List.mem_cons_of_mem _ hw)
    have hres := hfold (parsedNames input) []
      (fun v hv => ⟨hall v hv, parsedNames_strip hv⟩)
    simp only [hres]
    simp

/-- C7 (witness): the theorem applied to a store already tracking "alice" and
a second add of "alice": the add fails and the store is unchanged. -/
theorem c7_add_user_idempotent_witness :
    (pyStrip "alice" ∈ ([⟨"alice", 0⟩] : List TrackedUser).map TrackedUser.username) ∧
    add_user ([⟨"alice", 0⟩] : List TrackedUser) "alice" 7 = (false, [⟨"alice", 0⟩]) :=
  ⟨by decide, c7_add_user_idempotent.1 [⟨"alice", 0⟩] "alice" 7 (by decide)⟩

theorem rank_change_int_ok (prev : PyRank) (n : Int) :
    ∃ s, rank_change prev (PyRank.int n) = Except.ok s := by
  cases prev
  · exact ⟨_, rfl⟩
  · exact ⟨"", rfl⟩
  · exact ⟨"", rfl⟩

theorem run_pipeline_cons (profO : String → FetchResult ProfilePayload)
    (skillO : String → Option (List (String × SkillVal))) (u : String)
    (rest : List String) (st : PipelineState) :
    run_pipeline profO skillO (u :: rest) st =
      match pipelineStep (profO u) (skillO u) u st with
      | .error e => .error e
      | .ok next => run_pipeline profO skillO rest next := rfl

theorem pipelineStep_failure (skillOutcome : Option (List (String × SkillVal)))
    (user err : String) (st : PipelineState) :
    pipelineStep (FetchResult.failure err) skillOutcome user st =
      Except.ok
        { st with
          warnings := st.warnings ++ ["Profile error (" ++ user ++ "): " ++ err]
          prevRanks := dictSet st.prevRanks user PyRank.na } := rfl

theorem pipelineStep_success {p : ProfilePayload} {n : Int}
    (skillOutcome : Option (List (String × SkillVal))) (user : String)
    (st : PipelineState) (hn : p.ranking = some n) {delta : String}
    (hdelta : rank_change (prevGet st.prevRanks user) (PyRank.int n) =
      Except.ok delta) :
    pipelineStep (FetchResult.success p) skillOutcome user st =
      Except.ok
        { rows := st.rows ++ [mkRow user p delta]
          skills := st.skills ++ [(get_skill_table user skillOutcome).1]
          prevRanks := dictSet st.prevRanks user (PyRank.int n)
          warnings := st.warnings ++ [] ++ (get_skill_table user skillOutcome).2 } := by
  have hcur : curRank p = PyRank.int n := by
    unfold curRank
    rw [hn]
  unfold pipelineStep
  show (match rank_change (prevGet st.prevRanks user) (curRank p) with
    | .error e => Except.error e
    | .ok delta => _) = _
  rw [hcur, hdelta]
  rfl

/-- C8: a network/HTTP/parse failure of a fetch yields "no data" — `None` from
`get_profile`, an empty table from `get_skill_table` — plus a visible warning
and no escaping exception, and the run goes on: the produced leaderboard rows
are exactly those of the users whose profile fetch succeeded (in order),
while every user contributes its warnings, so users after a failure are still
processed.  (The hypothesis asks that successful payloads carry a `ranking`
field, which keeps `rank_change` away from its `TypeError`; it restricts
successes only, not the failures the claim is about.) -/
theorem c8_fetch_failure_tolerated :
    (∀ user err : String,
       get_profile user (FetchResult.failure err) =
         (Option.none, ["Profile error (" ++ user ++ "): " ++ err])) ∧
    (∀ user : String, (get_skill_table user Option.none).1 = []) ∧
    (∀ (profO : String → FetchResult ProfilePayload)
       (skillO : String → Option (List (String × SkillVal)))
       (users : List String) (st : PipelineState),
       (∀ u p, profO u = FetchResult.success p → (p.ranking).isSome) →
       ∃ final, run_pipeline profO skillO users st = Except.ok final ∧
         final.rows.map RowEntry.username =
           st.rows.map RowEntry.username ++
             users.filter (fun u => isSuccess (profO u)) ∧
         final.warnings = st.warnings ++ users.flatMap (warnFor profO skillO)) := by
  refine ⟨fun user err => rfl, fun user => rfl, ?_⟩
  intro profO skillO users st h
  induction users generalizing st with
  | nil => exact ⟨st, rfl, by simp, by simp⟩
  | cons u rest ih =>
    cases hpo : profO u with
    | failure err =>
      obtain ⟨final, hrun, hrows, hwarn⟩ := ih
        { st with
          warnings := st.warnings ++ ["Profile error (" ++ u ++ "): " ++ err]
          prevRanks := dictSet st.prevRanks u PyRank.na }
      refine ⟨final, ?_, ?_, ?_⟩
      · rw [run_pipeline_cons, hpo, pipelineStep_failure]
        exact hrun
      · rw [hrows]
        simp [List.filter_cons, hpo, isSuccess]
      · rw [hwarn]
        simp [warnFor, hpo]
    | success p =>
      obtain ⟨n, hn⟩ : ∃ n, p.ranking = some n := by
        have hs := h u p hpo
        cases hp : p.ranking with
        | none => rw [hp] at hs; simp at hs
        | some n => exact ⟨n, rfl⟩
      obtain ⟨delta, hdelta⟩ := rank_change_int_ok (prevGet st.prevRanks u) n
      obtain ⟨final, hrun, hrows, hwarn⟩ := ih
        { rows := st.rows ++ [mkRow u p delta]
          skills := st.skills ++ [(get_skill_table u (skillO u)).1]
          prevRanks := dictSet st.prevRanks u (PyRank.int n)
          warnings := st.warnings ++ [] ++ (get_skill_table u (skillO u)).2 }
      refine ⟨final, ?_, ?_, ?_⟩
      · rw [run_pipeline_cons, hpo, pipelineStep_success (skillO u) u st hn hdelta]
        exact hrun
      · rw [hrows]
        simp [List.filter_cons, hpo, isSuccess, mkRow]
      · rw [hwarn]
        simp [warnFor, hpo]

/-- C8 (witness): the theorem applied to a two-user run in which every profile
fetch fails: the run completes, produces no rows, and both users contribute
their warning. -/
theorem c8_fetch_failure_tolerated_witness :
    (∀ (u : String) (p : ProfilePayload),
       failOracle u = FetchResult.success p → (p.ranking).isSome) ∧
    ∃ final,
      run_pipeline failOracle noSkills ["alice", "bob"]
          (PipelineState.mk [] [] [] []) = Except.ok final ∧
      final.rows.map RowEntry.username =
        (PipelineState.mk [] [] [] []).rows.map RowEntry.username ++
          (["alice", "bob"].filter fun u => isSuccess (failOracle u)) ∧
      final.warnings =
        (PipelineState.mk [] [] [] []).warnings ++
          (["alice", "bob"].flatMap (warnFor failOracle noSkills)) :=
  ⟨(fun _ _ hin => nomatch hin),
    c8_fetch_failure_tolerated.2.2 failOracle noSkills ["alice", "bob"]
      (PipelineState.mk [] [] [] []) (fun _ _ hin => nomatch hin)⟩

theorem lookup_dictSet (prev : List (String × PyRank)) (user w : String)
    (v : PyRank) :
    (dictSet prev user v).lookup w = if w = user then some v else prev.lookup w := by
  induction prev with
  | nil =>
    by_cases h : w = user
    · subst h; simp [dictSet, List.lookup]
    · simp [dictSet, List.lookup, beq_false_of_ne h, if_neg h]
  | cons p rest ih =>
    obtain ⟨k, x⟩ := p
    by_cases hk : k = user
    · subst hk
      by_cases hw : w = k
      · subst hw; simp [dictSet, List.lookup]
      · simp [dictSet, List.lookup, beq_false_of_ne hw, if_neg hw]
    · by_cases hw : w = k
      · subst hw
        simp [dictSet, List.lookup, if_neg hk, beq_false_of_ne hk]
      · simp [dictSet, List.lookup, if_neg hk, beq_false_of_ne hw, ih]

theorem pipelineStep_ok_prevRanks {po : FetchResult ProfilePayload}
    {sk : Option (List (String × SkillVal))} {user : String}
    {st next : PipelineState}
    (h : pipelineStep po sk user st = Except.ok next) :
    ∃ v, next.prevRanks = dictSet st.prevRanks user v := by
  cases po with
  | failure err =>
    rw [pipelineStep_failure] at h
    exact ⟨PyRank.na, by rw [← Except.ok.inj h]⟩
  | success p =>
    simp only [pipelineStep, get_profile] at h
    cases hrc : rank_change (prevGet st.prevRanks user) (curRank p) with
    | error e => rw [hrc] at h; simp at h
    | ok delta =>
      rw [hrc] at h
      exact ⟨curRank p, by rw [← Except.ok.inj h]⟩

theorem run_preserves_na (profO : String → FetchResult ProfilePayload)
    (skillO : String → Option (List (String × SkillVal))) (u err : String)
    (hpo : profO u = FetchResult.failure err) :
    ∀ (users : List String) (st final : PipelineState),
      run_pipeline profO skillO users st = Except.ok final →
      prevGet st.prevRanks u = PyRank.na → prevGet final.prevRanks u = PyRank.na := by
  intro users
  induction users with
  | nil =>
    intro st final h hna
    simp only [run_pipeline] at h
    rw [← Except.ok.inj h]
    exact hna
  | cons v rest ih =>
    intro st final h hna
    rw [run_pipeline_cons] at h
    cases hstep : pipelineStep (profO v) (skillO v) v st with
    | error e => rw [hstep] at h; simp at h
    | ok next =>
      rw [hstep] at h
      apply ih next final h
      by_cases hv : v = u
      · subst hv
        rw [hpo, pipelineStep_failure] at hstep
        rw [← Except.ok.inj hstep]
        simp [prevGet, lookup_dictSet]
      · obtain ⟨w, hw⟩ := pipelineStep_ok_prevRanks hstep
        have huv : u ≠ v := fun hh => hv hh.symm
        rw [hw]
        simpa [prevGet, lookup_dictSet, huv] using hna

/-- C10: after a pipeline run, the previous-rank entry of every user whose
profile fetch failed is "N/A" — the prior value, numeric or not, is
overwritten — and a loop iteration for that user in a later run whose fetch
succeeds computes a rank delta of the empty string. -/
theorem c10_failed_fetch_resets_prev_rank :
    (∀ (profO : String → FetchResult ProfilePayload)
       (skillO : String → Option (List (String × SkillVal)))
       (users : List String) (st final : PipelineState) (u err : String),
       run_pipeline profO skillO users st = Except.ok final →
       u ∈ users → profO u = FetchResult.failure err →
       prevGet final.prevRanks u = PyRank.na) ∧
    (∀ (skillOutcome : Option (List (String × SkillVal))) (user : String)
       (p : ProfilePayload) (st : PipelineState),
       prevGet st.prevRanks user = PyRank.na →
       ∃ next, pipelineStep (FetchResult.success p) skillOutcome user st =
           Except.ok next ∧
         next.rows = st.rows ++ [mkRow user p ""]) := by
  constructor
  · intro profO skillO users
    induction users with
    | nil =>
      intro st final u err hrun hmem
      exact absurd hmem (List.not_mem_nil u)
    | cons v rest ih =>
      intro st final u err hrun hmem hpo
      rw [run_pipeline_cons] at hrun
      cases hstep : pipelineStep (profO v) (skillO v) v st with
      | error e => rw [hstep] at hrun; simp at hrun
      | ok next =>
        rw [hstep] at hrun
        rcases List.mem_cons.mp hmem with heq | hmem2
        · subst heq
          rw [hpo, pipelineStep_failure] at hstep
          apply run_preserves_na profO skillO u err hpo rest next final hrun
          rw [← Except.ok.inj hstep]
          simp [prevGet, lookup_dictSet]
        · exact ih next final u err hrun hmem2 hpo
  · intro skillOutcome user p st hna
    have hrc : rank_change (prevGet st.prevRanks user) (curRank p) =
        Except.ok "" := by
      rw [hna]
      cases curRank p <;> rfl
    refine ⟨{ rows := st.rows ++ [mkRow user p ""]
              skills := st.skills ++ [(get_skill_table user skillOutcome).1]
              prevRanks := dictSet st.prevRanks user (curRank p)
              warnings := st.warnings ++ [] ++
                (get_skill_table user skillOutcome).2 }, ?_, rfl⟩
    simp only [pipelineStep, get_profile]
    rw [hrc]

/-- C10 (witness): the theorem applied to a run over the single user "alice"
whose fetch fails, starting from a session that remembers rank 5 for
"alice": afterwards the remembered rank is "N/A". -/
theorem c10_failed_fetch_resets_prev_rank_witness :
    (run_pipeline failOracle noSkills ["alice"]
        (PipelineState.mk [] [] [("alice", PyRank.int 5)] []) =
      Except.ok (PipelineState.mk [] [] [("alice", PyRank.na)]
        ["Profile error (alice): timeout"]) ∧
      "alice" ∈ ["alice"] ∧ failOracle "alice" = FetchResult.failure "timeout") ∧
    prevGet (PipelineState.mk [] [] [("alice", PyRank.na)]
        ["Profile error (alice): timeout"]).prevRanks "alice" = PyRank.na :=
  ⟨⟨rfl, List.mem_singleton.mpr rfl, rfl⟩,
    c10_failed_fetch_resets_prev_rank.1 failOracle noSkills ["alice"]
      (PipelineState.mk [] [] [("alice", PyRank.int 5)] [])
      (PipelineState.mk [] [] [("alice", PyRank.na)]
        ["Profile error (alice): timeout"])
      "alice" "timeout" rfl (List.mem_singleton.mpr rfl) rfl⟩

theorem lookup_setEntry_self {α : Type}
    (l : List ((String × String) × (α × Nat))) (k : String × String)
    (v : α × Nat) : (setEntry l k v).lookup k = some v := by
  induction l with
  | nil => simp [setEntry, List.lookup]
  | cons p rest ih =>
    obtain ⟨j, w⟩ := p
    by_cases h : j = k
    · subst h; simp [setEntry, List.lookup]
    · simp [setEntry, List.lookup, if_neg h, beq_false_of_ne (fun hh => h hh.symm), ih]

theorem cachedFetch_networked {α : Type} (fetch : String → String → α)
    (c : Cache α) (e u : String) (t : Nat)
    (h : (cachedFetch fetch c e u t).2.2 = true) :
    cachedFetch fetch c e u t =
      (fetch e u, ⟨setEntry c.entries (e, u) (fetch e u, t)⟩, true) := by
  unfold cachedFetch at h ⊢
  cases hl : c.entries.lookup (e, u) with
  | none => rfl
  | some vt =>
    obtain ⟨v, ts⟩ := vt
    rw [hl] at h
    have h2 : (if t < ts + CACHE_TTL then (v, c, false)
        else (fetch e u, (⟨setEntry c.entries (e, u) (fetch e u, t)⟩ : Cache α),
          true)).2.2 = true := h
    show (if t < ts + CACHE_TTL then (v, c, false)
        else (fetch e u, (⟨setEntry c.entries (e, u) (fetch e u, t)⟩ : Cache α),
          true)) =
      (fetch e u, (⟨setEntry c.entries (e, u) (fetch e u, t)⟩ : Cache α), true)
    by_cases hfresh : t < ts + CACHE_TTL
    · rw [if_pos hfresh] at h2; simp at h2
    · rw [if_neg hfresh]

/-- C9 (counterexample): two fetches one second apart need not hit the cache:
with an entry stored at time 0 and `CACHE_TTL = 1800`, a fetch at 1799
returns the cached value 7 with no network call, but the next fetch at 1800
(one second later, well within 1800 seconds of the first) finds the entry
expired, performs a network call, and returns the fresh value 42 — neither
"identical cached data" nor "no new network call" holds. -/
theorem c9_cache_ttl_counterexample :
    ((cachedFetch (fun _ _ => (42 : Int)) ⟨[(("profile", "alice"), (7, 0))]⟩
        "profile" "alice" 1799).1 = 7 ∧
     (cachedFetch (fun _ _ => (42 : Int)) ⟨[(("profile", "alice"), (7, 0))]⟩
        "profile" "alice" 1799).2.2 = false) ∧
    1800 - 1799 < CACHE_TTL ∧
    (cachedFetch (fun _ _ => (42 : Int))
        (cachedFetch (fun _ _ => (42 : Int)) ⟨[(("profile", "alice"), (7, 0))]⟩
          "profile" "alice" 1799).2.1 "profile" "alice" 1800).2.2 = true ∧
    (cachedFetch (fun _ _ => (42 : Int))
        (cachedFetch (fun _ _ => (42 : Int)) ⟨[(("profile", "alice"), (7, 0))]⟩
          "profile" "alice" 1799).2.1 "profile" "alice" 1800).1 = 42 := by
  decide

/-- C9 (amended): counted from a fetch that performed the network call (and so
stamped the entry), any second fetch of the same endpoint and username within
1800 seconds returns the identical value and cache without a new network
call; after an explicit full cache clear, the next fetch always performs a
network call and returns the freshly fetched value. -/
theorem c9_cache_ttl_amended {α : Type} :
    (∀ (fetch : String → String → α) (c : Cache α) (e u : String) (t₁ t₂ : Nat),
       (cachedFetch fetch c e u t₁).2.2 = true →
       t₂ < t₁ + CACHE_TTL →
       cachedFetch fetch (cachedFetch fetch c e u t₁).2.1 e u t₂ =
         ((cachedFetch fetch c e u t₁).1, (cachedFetch fetch c e u t₁).2.1,
           false)) ∧
    (∀ (fetch : String → String → α) (c : Cache α) (e u : String) (t : Nat),
       (cachedFetch fetch (clearCache c) e u t).2.2 = true ∧
       (cachedFetch fetch (clearCache c) e u t).1 = fetch e u) := by
  constructor
  · intro fetch c e u t₁ t₂ hnet hlt
    rw [cachedFetch_networked fetch c e u t₁ hnet]
    show cachedFetch fetch ⟨setEntry c.entries (e, u) (fetch e u, t₁)⟩ e u t₂ =
      (fetch e u, (⟨setEntry c.entries (e, u) (fetch e u, t₁)⟩ : Cache α), false)
    unfold cachedFetch
    rw [lookup_setEntry_self]
    simp [hlt]
  · intro fetch c e u t
    exact ⟨rfl, rfl⟩

/-- C9 (witness): the amended theorem applied to an empty cache: the first
fetch at time 0 performs the network call, and the second at time 10 returns
the same value and cache without a network call. -/
theorem c9_cache_ttl_amended_witness :
    ((cachedFetch (fun _ _ => (5 : Int)) (⟨[]⟩ : Cache Int) "profile" "alice"
        0).2.2 = true ∧ (10 : Nat) < 0 + CACHE_TTL) ∧
    cachedFetch (fun _ _ => (5 : Int))
        (cachedFetch (fun _ _ => (5 : Int)) (⟨[]⟩ : Cache Int) "profile"
          "alice" 0).2.1 "profile" "alice" 10 =
      ((cachedFetch (fun _ _ => (5 : Int)) (⟨[]⟩ : Cache Int) "profile"
          "alice" 0).1,
        (cachedFetch (fun _ _ => (5 : Int)) (⟨[]⟩ : Cache Int) "profile"
          "alice" 0).2.1, false) :=
  ⟨⟨rfl, by decide⟩,
    c9_cache_ttl_amended.1 (fun _ _ => (5 : Int)) (⟨[]⟩ : Cache Int) "profile"
      "alice" 0 10 rfl (by decide)⟩

end LCF
